import Mathlib

/-!
Verification development for the IMQS/argparse command-line parsing library
(src/argparse.h, the command-capable header variant).

The C++ classes `Option` and `Args` are embedded as Lean structures; the
in-place mutation performed by `Args::Parse` and its helpers is embedded as
explicit state passing (each operation returns the updated `Args` value).
Strings are Lean `String`s; the byte-oriented C string operations of the
source (`arg + 1`, `arg[0] == '-'`, `strcmp`) are modelled by character-level
operations, which agree with the source on the ASCII tokens the program
manipulates.  Diagnostic `printf` output is not part of the model; only the
state effects and the boolean parse outcome are.
-/

namespace Argparse

/-- Embeds C++ class `Option` (src/argparse.h).  `Toggled` and `Value` are the
mutable result fields; the rest is the declaration. -/
structure ArgOption where
  ExpectsValue : Bool := false
  Short : String := ""
  Long : String := ""
  Summary : String := ""
  Default : String := ""
  Toggled : Bool := false
  Value : String := ""
deriving Repr, DecidableEq

/-- `Option::HasShort`: the short name is non-empty. -/
def ArgOption.HasShort (o : ArgOption) : Bool := o.Short.length != 0

/-- The fields of C++ class `Args`, parameterised by the type of the nested
command objects (`std::vector<Args*> Commands`).  `CmdFunc` is the stored
`std::function` handler, defunctionalised: `some f` is a registered handler
identified by `f` (its meaning is supplied externally when executing),
`none` is the default-constructed (null) `std::function`. -/
structure ArgsCore (A : Type) where
  Usage : String := ""
  Options : List ArgOption := []
  Params : List String := []
  Commands : List A := []
  WasHelpShown : Bool := false
  CmdName : String := ""
  CmdParams : String := ""
  CmdFunc : Option Nat := none
  CmdEnforceParams : Bool := true
  CmdWasChosen : Bool := false

/-- Embeds C++ class `Args` (a recursive type: commands are themselves
`Args` objects). -/
inductive Args where
  | mk : ArgsCore Args → Args

/-- Field access for `Args`. -/
def Args.core : Args → ArgsCore Args
  | .mk c => c

instance : Inhabited ArgOption := ⟨{}⟩
instance : Inhabited Args := ⟨.mk {}⟩

@[simp] theorem Args.core_mk (c : ArgsCore Args) : (Args.mk c).core = c := rfl

@[simp] theorem Args.mk_core (a : Args) : Args.mk a.core = a := by
  cases a; rfl

/-- Character-level model of `s[0] == '-'` (with the `length != 0` guard of
`Args::Parse`). -/
def startsDash (s : String) : Bool :=
  match s.toList with
  | c :: _ => c == '-'
  | [] => false

/-- Character-level model of the C pointer arithmetic `arg + n`. -/
def strDrop (s : String) (n : Nat) : String := ⟨s.toList.drop n⟩

/-- `Args::IsNumeric`: every character is a digit, `-`, `+`, `.` or `e`. -/
def isNumericChar (c : Char) : Bool :=
  (('0'.toNat ≤ c.toNat && c.toNat ≤ '9'.toNat) || c == '-' || c == '+' || c == '.' || c == 'e')

/-- `Args::IsNumeric` (src/argparse.h lines 422-428). -/
def IsNumeric (s : String) : Bool := s.toList.all isNumericChar

/-- The per-option matching test inside `Args::FindOption`: the short name
equals everything after the leading `-`, or the token has a second `-` and
the long name equals everything after the two dashes. -/
def optMatches (o : ArgOption) (arg : String) : Bool :=
  (o.HasShort && o.Short == strDrop arg 1) ||
  (startsDash (strDrop arg 1) && o.Long == strDrop arg 2)

/-- `Args::FindOption` (src/argparse.h lines 350-358), returning the index of
the first matching option instead of a pointer to it. -/
def FindOption (opts : List ArgOption) (arg : String) : Option Nat :=
  opts.findIdx? (fun o => optMatches o arg)

/-- In-place update of the i-th element of a list (models mutation through
the `Option*` / `Args*` pointers of the source). -/
def updateNth (f : α → α) : Nat → List α → List α
  | _, [] => []
  | 0, x :: xs => f x :: xs
  | n+1, x :: xs => x :: updateNth f n xs

/-- `Args::CmdParamsCount` (src/argparse.h lines 209-216): the number of `<`
characters in `CmdParams`. -/
def Args.CmdParamsCount (a : Args) : Nat := a.core.CmdParams.toList.count '<'

/-- The names an option contributes to the `seen` set of
`Args::ValidateSanity`: its short name when present, and its long name. -/
def optNames (o : ArgOption) : List String :=
  (if o.HasShort then [o.Short] else []) ++ [o.Long]

/-- The option loop of `Args::ValidateSanity` (src/argparse.h lines 361-378):
one shared `seen` set receives both short and long names. -/
def validateOptions : List ArgOption → List String → Bool
  | [], _ => true
  | o :: rest, seen =>
    if o.HasShort ∧ o.Short.length ≠ 1 then false
    else if o.HasShort ∧ o.Short ∈ seen then false
    else if o.Long ∈ seen then false
    else validateOptions rest (optNames o ++ seen)

mutual

/-- `Args::ValidateSanity` (src/argparse.h lines 360-392). -/
def ValidateSanity : Args → Nat → Bool
  | .mk c, depth =>
    validateOptions c.Options [] &&
    !(depth == 1 && c.Commands.length != 0) &&
    !(c.Commands.length != 0 && c.Params.length != 0) &&
    validateList c.Commands (depth + 1)

/-- The `for (auto c : Commands) if (!c->ValidateSanity(depth+1))` loop. -/
def validateList : List Args → Nat → Bool
  | [], _ => true
  | a :: as, depth => ValidateSanity a depth && validateList as depth

end

/-- Clears `Toggled` and `Value` (the option part of `Args::Reset`). -/
def resetOpt (o : ArgOption) : ArgOption := { o with Toggled := false, Value := "" }

/-- `c->CmdWasChosen = false` on a command, done by the parent in
`Args::Reset`. -/
def clearChosen (a : Args) : Args := .mk { a.core with CmdWasChosen := false }

mutual

/-- `Args::Reset` (src/argparse.h lines 394-403).  Note the source clears
`Toggled`/`Value` of the options and `CmdWasChosen` of each child command,
but does NOT clear `Params` (nor `WasHelpShown`). -/
def Reset : Args → Args
  | .mk c => .mk { c with Options := c.Options.map resetOpt,
                          Commands := resetList c.Commands }

/-- The `for (auto c : Commands)` loop of `Args::Reset`. -/
def resetList : List Args → List Args
  | [] => []
  | a :: as => clearChosen (Reset a) :: resetList as

end

/-- The option list `Args::Parse` searches: the chosen command when one is
active (`cmd ? cmd->FindOption(...) : FindOption(...)`), else the root. -/
def activeOpts (root : Args) (cmd : Option Nat) : List ArgOption :=
  match cmd with
  | none => root.core.Options
  | some k => (root.core.Commands.getD k default).core.Options

/-- `opt->Toggled = true` (switch case of `Args::Parse`). -/
def setToggled (o : ArgOption) : ArgOption := { o with Toggled := true }

/-- `opt->Value = argv[i]; opt->Toggled = true` (value case of
`Args::Parse`). -/
def setValue (v : String) (o : ArgOption) : ArgOption :=
  { o with Toggled := true, Value := v }

/-- Applies `f` to option `oi` of the active option list (mutation through
the `Option*` returned by `FindOption`). -/
def updOpt (root : Args) (cmd : Option Nat) (oi : Nat) (f : ArgOption → ArgOption) : Args :=
  match cmd with
  | none => .mk { root.core with Options := updateNth f oi root.core.Options }
  | some k => .mk { root.core with
      Commands := updateNth
        (fun c => .mk { c.core with Options := updateNth f oi c.core.Options })
        k root.core.Commands }

/-- Appends a positional parameter to the active object
(`cmd->Params.push_back(arg)` or `Params.push_back(arg)`). -/
def addParam (root : Args) (cmd : Option Nat) (arg : String) : Args :=
  match cmd with
  | none => .mk { root.core with Params := root.core.Params ++ [arg] }
  | some k => .mk { root.core with
      Commands := updateNth
        (fun c => .mk { c.core with Params := c.core.Params ++ [arg] })
        k root.core.Commands }

/-- `cmd->CmdWasChosen = true` for the command at index `k`. -/
def chooseCmd (root : Args) (k : Nat) : Args :=
  .mk { root.core with
        Commands := updateNth (fun c => .mk { c.core with CmdWasChosen := true })
          k root.core.Commands }

/-- Sets `WasHelpShown` on the first command whose `CmdName` matches (the
`forCmd` loop of `Args::ShowHelpInternal`); no state change when none
matches. -/
def setHelpFirst : List Args → String → List Args
  | [], _ => []
  | c :: cs, name =>
    if c.core.CmdName == name then .mk { c.core with WasHelpShown := true } :: cs
    else c :: setHelpFirst cs name

/-- The state effect of `Args::ShowHelpInternal` (src/argparse.h lines
430-492): with an empty `forCmd` it prints help and sets the receiver's own
`WasHelpShown`; with a non-empty `forCmd` it forwards to the first command of
that name (whose `WasHelpShown` then gets set by its own depth-1 call), or
prints "Unknown command" and changes nothing.  Printing is not modelled. -/
def ShowHelpInternal (a : Args) (forCmd : String) : Args :=
  if forCmd ≠ "" then .mk { a.core with Commands := setHelpFirst a.core.Commands forCmd }
  else .mk { a.core with WasHelpShown := true }

/-- The fixed help spellings of src/argparse.h line 244. -/
def helpSpelling (a : String) : Bool :=
  a == "-h" || a == "-help" || a == "--help" || a == "-?" ||
  a == "/?" || a == "/h" || a == "/help"

/-- The command-lookup / positional part of the `Args::Parse` loop body
(src/argparse.h lines 259-284), reached by fall-through from the option
branch (for numeric `-` tokens) or directly (for tokens not starting with
`-`).  `next` is `argv[i+1]` when not at the end.  `Sum.inl` is an immediate
return from `Parse`; `Sum.inr` is the state with which the loop continues. -/
def cmdOrPos (root : Args) (cmd : Option Nat) (arg : String) (next : Option String) :
    (Args × Bool) ⊕ (Args × Option Nat) :=
  if root.core.Commands.length ≠ 0 ∧ cmd = none then
    match root.core.Commands.findIdx? (fun c => c.core.CmdName == arg) with
    | some k => Sum.inr (chooseCmd root k, some k)
    | none =>
      if arg = "help" then
        match next with
        | some nxt => Sum.inl (ShowHelpInternal root nxt, false)
        | none => Sum.inl (ShowHelpInternal root "", false)
      else Sum.inl (root, false)   -- "Unknown command"
  else Sum.inr (addParam root cmd arg, cmd)

/-- The post-loop parameter-count check of `Args::Parse` (src/argparse.h
lines 287-295). -/
def parsePost (root : Args) (cmd : Option Nat) : Args × Bool :=
  match cmd with
  | none => (root, true)
  | some k =>
    let c := root.core.Commands.getD k default
    if c.core.CmdEnforceParams ∧ c.core.Params.length ≠ Args.CmdParamsCount c then
      (root, false)
    else (root, true)

/-- The token loop of `Args::Parse` (src/argparse.h lines 223-285), as a
recursion over the remaining tokens.  `root` is the (mutated-so-far) `Args`
object, `cmd` the chosen command index (`Args* cmd` of the source). -/
def parseLoop (root : Args) (cmd : Option Nat) : List String → Args × Bool
  | [] => parsePost root cmd
  | arg :: rest =>
    if startsDash arg then
      match FindOption (activeOpts root cmd) arg with
      | some oi =>
        if ((activeOpts root cmd).getD oi default).ExpectsValue then
          match rest with
          | [] => (root, false)        -- "expects a value" with atEnd
          | v :: rest2 => parseLoop (updOpt root cmd oi (setValue v)) cmd rest2
        else parseLoop (updOpt root cmd oi setToggled) cmd rest
      | none =>
        if helpSpelling arg then
          match rest with
          | [] => (ShowHelpInternal root "", false)
          | nxt :: _ => (ShowHelpInternal root nxt, false)
        else if IsNumeric arg then
          match cmdOrPos root cmd arg rest.head? with
          | Sum.inl done => done
          | Sum.inr (root2, cmd2) => parseLoop root2 cmd2 rest
        else (root, false)             -- "Unknown option"
    else
      match cmdOrPos root cmd arg rest.head? with
      | Sum.inl done => done
      | Sum.inr (root2, cmd2) => parseLoop root2 cmd2 rest

/-- `Args::Parse` (src/argparse.h lines 218-296).  `argv.drop startAt` is the
token slice `argv[startAt..argc)`. -/
def Parse (a : Args) (argv : List String) (startAt : Nat) : Args × Bool :=
  if ValidateSanity a 0 then parseLoop (Reset a) none (argv.drop startAt)
  else (a, false)

/-- `Args::WhichCommand` (src/argparse.h lines 305-311). -/
def WhichCommand (a : Args) : Option Args :=
  a.core.Commands.find? (fun c => c.core.CmdWasChosen)

/-- `Args::ExecCommand` (src/argparse.h lines 298-303).  `env` supplies the
meaning of the defunctionalised handlers.  A chosen command whose `CmdFunc`
is `none` corresponds to invoking a default-constructed `std::function`,
which does not return a value (it raises `std::bad_function_call`); this is
modelled as `none`. -/
def ExecCommand (env : Nat → Args → Int) (a : Args) : Option Int :=
  match WhichCommand a with
  | none => some 1
  | some c =>
    match c.core.CmdFunc with
    | some f => some (env f c)
    | none => none

/-- The `Args(std::string cmdName, std::string usage, CmdFunc func)`
constructor (src/argparse.h lines 152-161): splits `cmdName` at the first
space into the command name and the parameter text. -/
def mkCommand (cmdName usage : String) (func : Option Nat) : Args :=
  match cmdName.toList.findIdx? (fun c => c == ' ') with
  | some i => .mk { Usage := usage, CmdFunc := func,
                    CmdName := ⟨cmdName.toList.take i⟩,
                    CmdParams := ⟨cmdName.toList.drop (i + 1)⟩ }
  | none => .mk { Usage := usage, CmdFunc := func, CmdName := cmdName }

/-- `Args::AddSwitch` (src/argparse.h lines 168-176). -/
def Args.AddSwitch (a : Args) (s l summary : String) : Args :=
  .mk { a.core with Options := a.core.Options ++
    [{ ExpectsValue := false, Short := s, Long := l, Summary := summary, Default := "0" }] }

/-- `Args::AddValue` (src/argparse.h lines 178-186). -/
def Args.AddValue (a : Args) (s l summary dflt : String) : Args :=
  .mk { a.core with Options := a.core.Options ++
    [{ ExpectsValue := true, Short := s, Long := l, Summary := summary, Default := dflt }] }

/-- `Args::AddCommand` (src/argparse.h lines 188-191). -/
def Args.AddCommand (a : Args) (name description : String) (func : Option Nat) : Args :=
  .mk { a.core with Commands := a.core.Commands ++ [mkCommand name description func] }

/-! ## Helper lemmas about the embedding -/

theorem updateNth_length (f : α → α) (i : Nat) (l : List α) :
    (updateNth f i l).length = l.length := by
  induction l generalizing i with
  | nil => cases i <;> rfl
  | cons x xs ih => cases i <;> simp [updateNth, ih]

theorem updateNth_getD_self (f : α → α) (i : Nat) (l : List α) (d : α)
    (h : i < l.length) : (updateNth f i l).getD i d = f (l.getD i d) := by
  induction l generalizing i with
  | nil => simp at h
  | cons x xs ih =>
    cases i with
    | zero => rfl
    | succ n => simpa [updateNth] using ih n (by simpa using h)

theorem updateNth_getD_ne (f : α → α) (i j : Nat) (l : List α) (d : α)
    (h : j ≠ i) : (updateNth f i l).getD j d = l.getD j d := by
  induction l generalizing i j with
  | nil => cases i <;> rfl
  | cons x xs ih =>
    cases i with
    | zero =>
      cases j with
      | zero => exact absurd rfl h
      | succ m => rfl
    | succ n =>
      cases j with
      | zero => rfl
      | succ m => simpa [updateNth] using ih n m (by omega)

theorem findOption_lt_length (opts : List ArgOption) (arg : String) (oi : Nat)
    (h : FindOption opts arg = some oi) : oi < opts.length :=
  (List.findIdx?_eq_some_iff_findIdx_eq.mp h).1

/-- When `FindOption` succeeds on the active option list of a chosen command,
the command index is in range (an out-of-range index denotes the default
`Args`, whose option list is empty). -/
theorem cmd_lt_of_findOption (root : Args) (k : Nat) (arg : String) (oi : Nat)
    (h : FindOption (activeOpts root (some k)) arg = some oi) :
    k < root.core.Commands.length := by
  by_contra hk
  push_neg at hk
  rw [activeOpts, List.getD_eq_default _ _ hk] at h
  simp [FindOption, default, Args.core] at h

theorem activeOpts_updOpt (root : Args) (cmd : Option Nat) (oi : Nat)
    (f : ArgOption → ArgOption)
    (hv : ∀ k, cmd = some k → k < root.core.Commands.length) :
    activeOpts (updOpt root cmd oi f) cmd = updateNth f oi (activeOpts root cmd) := by
  cases cmd with
  | none => rfl
  | some k =>
    have hk := hv k rfl
    simp only [activeOpts, updOpt, Args.core_mk]
    rw [updateNth_getD_self _ _ _ _ hk]
    rfl

/-! ## Example schemas used by witnesses and counterexamples -/

/-- A command-free schema: switch `-f` (long `force`) and value option
`-o` (long `outfile`), as in the `Simple` test of src/test.cpp. -/
def exSimple : Args :=
  ((Args.mk { Usage := "Usage: something" }).AddSwitch "f" "force" "Force a thing").AddValue
    "o" "outfile" "File to write to" ""

/-- A schema with one declared command `foo` and no top-level options. -/
def exCmdOnly : Args := (Args.mk { Usage := "thing" }).AddCommand "foo" "Do foo" (some 0)

/-! ## Claims -/

/-- Claim C1: for every schema and token list, when a `-` token matches a
declared value option of the active schema during the parse loop: if it is
the last token, the parse fails (the state is returned unchanged at that
point); otherwise the immediately following token `v` is captured as the
option's value, the option is marked toggled, and the loop resumes after the
value token (two positions advanced). -/
theorem parse_value_option_spec (root : Args) (cmd : Option Nat) (arg : String) (oi : Nat)
    (hdash : startsDash arg = true)
    (hfind : FindOption (activeOpts root cmd) arg = some oi)
    (hval : ((activeOpts root cmd).getD oi default).ExpectsValue = true) :
    parseLoop root cmd [arg] = (root, false) ∧
    ∀ v rest,
      parseLoop root cmd (arg :: v :: rest) =
        parseLoop (updOpt root cmd oi (setValue v)) cmd rest ∧
      ((activeOpts (updOpt root cmd oi (setValue v)) cmd).getD oi default).Toggled = true ∧
      ((activeOpts (updOpt root cmd oi (setValue v)) cmd).getD oi default).Value = v := by
  have hcmd : ∀ k, cmd = some k → k < root.core.Commands.length := by
    intro k hk
    subst hk
    exact cmd_lt_of_findOption root k arg oi hfind
  have hoi : oi < (activeOpts root cmd).length := findOption_lt_length _ _ _ hfind
  have hval2 : ((activeOpts root cmd)[oi]?.getD default).ExpectsValue = true := by
    simpa [List.getD] using hval
  refine ⟨?_, fun v rest => ⟨?_, ?_, ?_⟩⟩
  · simp [parseLoop, hdash, hfind, hval2]
  · simp [parseLoop, hdash, hfind, hval2]
  · rw [activeOpts_updOpt root cmd oi _ hcmd, updateNth_getD_self _ _ _ _ hoi]
    rfl
  · rw [activeOpts_updOpt root cmd oi _ hcmd, updateNth_getD_self _ _ _ _ hoi]
    rfl

/-- Witness for C1 at a concrete input: `--outfile` matches the value option
of `exSimple`; alone it fails, followed by `myfile` it captures the value. -/
theorem parse_value_option_spec_witness :
    parseLoop exSimple none ["--outfile"] = (exSimple, false) ∧
    parseLoop exSimple none ["--outfile", "myfile"] =
      parseLoop (updOpt exSimple none 1 (setValue "myfile")) none [] ∧
    ((activeOpts (updOpt exSimple none 1 (setValue "myfile")) none).getD 1 default).Toggled
      = true ∧
    ((activeOpts (updOpt exSimple none 1 (setValue "myfile")) none).getD 1 default).Value
      = "myfile" := by
  have h := parse_value_option_spec exSimple none "--outfile" 1 (by decide) (by decide)
    (by decide)
  exact ⟨h.1, (h.2 "myfile" []).1, (h.2 "myfile" []).2.1, (h.2 "myfile" []).2.2⟩

/-- Claim C2 (code bug): with a declared command and zero tokens at or beyond
the start index, `Args::Parse` returns success — the token loop never runs
and the source has no missing-command check — although src/test.cpp asserts
this parse fails ("Invalid, because no command specified").  The no-command
half of the claim (success) does hold. -/
theorem parse_no_tokens_with_commands_succeeds :
    (Parse exCmdOnly ["thing.exe"] 1).2 = true ∧
    (Parse (Args.mk { Usage := "u" }) ["prog"] 1).2 = true := by
  exact ⟨rfl, rfl⟩

/-- Every element of `resetList l` has its chosen flag cleared. -/
theorem resetList_chosen_false : ∀ (l : List Args), ∀ c ∈ resetList l,
    c.core.CmdWasChosen = false
  | [] => by intro c hc; simp [resetList] at hc
  | a :: as => by
    intro c hc
    simp only [resetList, List.mem_cons] at hc
    rcases hc with rfl | hc
    · rfl
    · exact resetList_chosen_false as c hc

/-- Counterexample to claim C3 as stated: a second `Parse` call does NOT
start from an empty positional list.  Parsing `p1`, then re-parsing the
resulting object on `p2`, leaves `Params = ["p1", "p2"]`, not `["p2"]`:
`Args::Reset` never clears `Params`. -/
theorem params_leak_across_parses :
    (Parse (Parse (Args.mk { Usage := "u" }) ["prog", "p1"] 1).1 ["prog", "p2"] 1).1.core.Params
      = ["p1", "p2"] ∧ (["p1", "p2"] : List String) ≠ ["p2"] :=
  ⟨rfl, by decide⟩

/-- Amended claim C3: at the start of a second `Parse` call the option
toggled flags and captured values and the commands' chosen flags of the
first call are reset (recursively), but the positional-parameter lists are
NOT cleared — positionals accumulate across calls. -/
theorem reset_clears_toggles_not_params (a : Args) :
    (Reset a).core.Params = a.core.Params ∧
    (Reset a).core.Options = a.core.Options.map resetOpt ∧
    (∀ o ∈ (Reset a).core.Options, o.Toggled = false ∧ o.Value = "") ∧
    (∀ c ∈ (Reset a).core.Commands, c.core.CmdWasChosen = false) ∧
    (∀ argv startAt, ValidateSanity a 0 = true →
      Parse a argv startAt = parseLoop (Reset a) none (argv.drop startAt)) := by
  cases a with
  | mk c =>
    refine ⟨rfl, rfl, ?_, ?_, ?_⟩
    · intro o ho
      simp only [Reset, Args.core_mk, List.mem_map] at ho
      obtain ⟨o0, _, rfl⟩ := ho
      exact ⟨rfl, rfl⟩
    · intro cc hcc
      exact resetList_chosen_false _ cc (by simpa [Reset] using hcc)
    · intro argv startAt h
      simp [Parse, h]

/-- Witness for C3 (amended) at a concrete input: the state left by a first
parse of `-f p1` is re-parsed; `Params` carries over and the second call
runs the loop on the reset state. -/
theorem reset_clears_toggles_not_params_witness :
    (Reset (Parse exSimple ["prog", "-f", "p1"] 1).1).core.Params
      = (Parse exSimple ["prog", "-f", "p1"] 1).1.core.Params ∧
    Parse (Parse exSimple ["prog", "-f", "p1"] 1).1 ["prog", "p2"] 1
      = parseLoop (Reset (Parse exSimple ["prog", "-f", "p1"] 1).1) none
          (["prog", "p2"].drop 1) :=
  ⟨(reset_clears_toggles_not_params (Parse exSimple ["prog", "-f", "p1"] 1).1).1,
   (reset_clears_toggles_not_params (Parse exSimple ["prog", "-f", "p1"] 1).1).2.2.2.2
     ["prog", "p2"] 1 (by decide)⟩

/-- Counterexample to claim C4 as stated: the reserved spelling `/h` (and
likewise `/?`, `/help`) does NOT cause a failed parse with help shown.  The
help-spelling check of `Args::Parse` sits inside the `arg[0] == '-'` branch,
so a `/`-token never reaches it: against `exSimple` (which declares no
matching option) `/h` is collected as a positional and the parse succeeds
with `WasHelpShown = false`. -/
theorem slash_help_token_is_positional :
    (Parse exSimple ["prog", "/h"] 1).2 = true ∧
    (Parse exSimple ["prog", "/h"] 1).1.core.WasHelpShown = false ∧
    (Parse exSimple ["prog", "/h"] 1).1.core.Params = ["/h"] :=
  ⟨rfl, rfl, rfl⟩

/-- Amended claim C4: of the reserved spellings only the `-`-prefixed ones
(`-h`, `-help`, `--help`, `-?`) act as help triggers when they match no
declared option of the active schema: as the last token they fail the parse
and set the receiving object's help-shown flag; followed by another token
they fail the parse with help scoped to that token (the root flag is then
not the one set).  The `/`-prefixed spellings are never treated as help
triggers (the check requires a leading `-`): on a command-free schema they
are collected as positionals and parsing continues. -/
theorem dash_help_token_spec (root : Args) (cmd : Option Nat) (arg : String)
    (hmem : arg = "-h" ∨ arg = "-help" ∨ arg = "--help" ∨ arg = "-?")
    (hfind : FindOption (activeOpts root cmd) arg = none) :
    parseLoop root cmd [arg] = (ShowHelpInternal root "", false) ∧
    (ShowHelpInternal root "").core.WasHelpShown = true ∧
    (∀ nxt rest, parseLoop root cmd (arg :: nxt :: rest) = (ShowHelpInternal root nxt, false)) ∧
    (∀ root2 s, (s = "/?" ∨ s = "/h" ∨ s = "/help") → root2.core.Commands = [] →
      parseLoop root2 none [s] = (addParam root2 none s, true)) := by
  have hdash : startsDash arg = true := by
    rcases hmem with rfl | rfl | rfl | rfl <;> decide
  have hhelp : helpSpelling arg = true := by
    rcases hmem with rfl | rfl | rfl | rfl <;> decide
  refine ⟨?_, ?_, ?_, ?_⟩
  · simp [parseLoop, hdash, hfind, hhelp]
  · simp [ShowHelpInternal]
  · intro nxt rest
    simp [parseLoop, hdash, hfind, hhelp]
  · intro root2 s hs hcmds
    have hd : startsDash s = false := by rcases hs with rfl | rfl | rfl <;> decide
    simp [parseLoop, hd, cmdOrPos, hcmds, parsePost]

/-- Witness for C4 (amended) at concrete inputs: `-h` against `exSimple`. -/
theorem dash_help_token_spec_witness :
    parseLoop exSimple none ["-h"] = (ShowHelpInternal exSimple "", false) ∧
    (ShowHelpInternal exSimple "").core.WasHelpShown = true ∧
    parseLoop exSimple none ["-h", "foo"] = (ShowHelpInternal exSimple "foo", false) ∧
    parseLoop exSimple none ["/h"] = (addParam exSimple none "/h", true) := by
  have h := dash_help_token_spec exSimple none "-h" (Or.inl rfl) (by decide)
  exact ⟨h.1, h.2.1, h.2.2.1 "foo" [], h.2.2.2 exSimple "/h" (Or.inr (Or.inl rfl)) rfl⟩

/-- Counterexample to claim C5 as stated: the token `--` does not parse as a
signed decimal or float literal (it has no digit and two dashes), so by the
claim it should fail as an unknown option; but `Args::IsNumeric` is a pure
character-class test (`-` is an allowed character anywhere), so `Args::Parse`
accepts `--` and collects it as a positional. -/
theorem dash_dash_token_treated_positional :
    (Parse exSimple ["prog", "--"] 1).2 = true ∧
    (Parse exSimple ["prog", "--"] 1).1.core.Params = ["--"] :=
  ⟨rfl, rfl⟩

/-- Amended claim C5: an option-like token (leading `-`) of a command-free
schema that matches no declared option and is no help spelling is treated as
a positional parameter exactly when EVERY character of the token is a digit,
`-`, `+`, `.` or `e` (the test is a character-class check: any number of
signs, dots or `e`s in any position, digits not required); any other such
token makes the parse fail (unknown option). -/
theorem unmatched_dash_token_charclass (root : Args) (arg : String)
    (hcmds : root.core.Commands = [])
    (hdash : startsDash arg = true)
    (hfind : FindOption root.core.Options arg = none)
    (hhelp : helpSpelling arg = false) :
    (IsNumeric arg = true →
       parseLoop root none [arg] = (addParam root none arg, true) ∧
       (addParam root none arg).core.Params = root.core.Params ++ [arg]) ∧
    (IsNumeric arg = false → parseLoop root none [arg] = (root, false)) := by
  constructor
  · intro hnum
    constructor
    · simp [parseLoop, hdash, hhelp, hnum, cmdOrPos, hcmds, parsePost, activeOpts, hfind]
    · cases root with
      | mk c => simp [addParam]
  · intro hnum
    simp [parseLoop, hdash, hhelp, hnum, activeOpts, hfind]

/-- Witness for C5 (amended) at concrete inputs: `-5` is collected as a
positional of `exSimple`, while `-bad` fails the parse. -/
theorem unmatched_dash_token_charclass_witness :
    parseLoop exSimple none ["-5"] = (addParam exSimple none "-5", true) ∧
    parseLoop exSimple none ["-bad"] = (exSimple, false) :=
  ⟨((unmatched_dash_token_charclass exSimple "-5" rfl (by decide) (by decide)
      (by decide)).1 (by decide)).1,
   (unmatched_dash_token_charclass exSimple "-bad" rfl (by decide) (by decide)
      (by decide)).2 (by decide)⟩

/-- Exact characterization of the option loop of `Args::ValidateSanity`: it
succeeds iff every present short name has length one, no option repeats a
name (short or long, one shared pool) of an earlier option, and no option
name is already in the incoming `seen` set. -/
theorem validateOptions_iff (opts : List ArgOption) : ∀ (seen : List String),
    validateOptions opts seen = true ↔
      ((∀ o ∈ opts, o.HasShort = true → o.Short.length = 1) ∧
       List.Pairwise (fun x y => ∀ n ∈ optNames y, n ∉ optNames x) opts ∧
       (∀ o ∈ opts, ∀ n ∈ optNames o, n ∉ seen)) := by
  induction opts with
  | nil => intro seen; simp [validateOptions]
  | cons o rest ih =>
    intro seen
    simp only [validateOptions]
    split
    next h1 =>
      simp only [Bool.false_eq_true, false_iff]
      rintro ⟨hA, -, -⟩
      exact absurd (hA o (by simp) h1.1) h1.2
    next h1 =>
      split
      next h2 =>
        simp only [Bool.false_eq_true, false_iff]
        rintro ⟨-, -, hC⟩
        exact hC o (by simp) o.Short (by simp [optNames, h2.1]) h2.2
      next h2 =>
        split
        next h3 =>
          simp only [Bool.false_eq_true, false_iff]
          rintro ⟨-, -, hC⟩
          exact hC o (by simp) o.Long (by simp [optNames]) h3
        next h3 =>
          rw [ih (optNames o ++ seen)]
          constructor
          · rintro ⟨hA, hB, hC⟩
            refine ⟨?_, List.pairwise_cons.mpr ⟨?_, hB⟩, ?_⟩
            · intro o2 ho2
              rcases List.mem_cons.mp ho2 with rfl | ho2
              · intro hs
                by_contra hlen
                exact h1 ⟨hs, hlen⟩
              · exact hA o2 ho2
            · intro o2 ho2 n hn hmem
              exact hC o2 ho2 n hn (List.mem_append.mpr (Or.inl hmem))
            · intro o2 ho2 n hn
              rcases List.mem_cons.mp ho2 with rfl | ho2
              · intro hns
                by_cases hs : o2.HasShort = true
                · simp [optNames, hs] at hn
                  rcases hn with rfl | rfl
                  · exact h2 ⟨hs, hns⟩
                  · exact h3 hns
                · simp [optNames, hs] at hn
                  subst hn
                  exact h3 hns
              · exact fun hns => hC o2 ho2 n hn (List.mem_append.mpr (Or.inr hns))
          · rintro ⟨hA, hB, hC⟩
            have hB2 := List.pairwise_cons.mp hB
            refine ⟨fun o2 ho2 => hA o2 (List.mem_cons_of_mem _ ho2), hB2.2, ?_⟩
            intro o2 ho2 n hn hmem
            rcases List.mem_append.mp hmem with hno | hns
            · exact hB2.1 o2 ho2 n hn hno
            · exact hC o2 (List.mem_cons_of_mem _ ho2) n hn hns

/-- An option set in which one option's long name `x` equals another
option's short name `x`; the two long names differ and the short names do
not collide (only one option has one). -/
def exCross : Args := Args.mk { Usage := "u", Options :=
  [{ Long := "x" }, { Short := "x", Long := "y" }] }

/-- Counterexample to claim C6 as stated: `exCross` has no short-short and
no long-long collision, so per the claim its validation must succeed; but
`Args::ValidateSanity` keeps one shared `seen` set for both pools, sees `x`
(the first option's long name) when checking the second option's short name
`x`, and fails — so `Parse` fails too. -/
theorem cross_pool_name_collision_fails :
    ValidateSanity exCross 0 = false ∧ (Parse exCross ["prog"] 1).2 = false :=
  ⟨rfl, rfl⟩

/-- Amended claim C6: pre-parse sanity validation checks short and long
names in ONE shared pool.  For a command-free OptionSet it succeeds exactly
when every present short name is one character and no option's name (short
or long) coincides with any name (short or long) of an earlier option; in
particular a short name equal to a different option's long name fails
validation. -/
theorem validate_names_single_pool (a : Args) (depth : Nat)
    (hcmds : a.core.Commands = []) :
    ValidateSanity a depth = true ↔
      ((∀ o ∈ a.core.Options, o.HasShort = true → o.Short.length = 1) ∧
       List.Pairwise (fun x y => ∀ n ∈ optNames y, n ∉ optNames x) a.core.Options) := by
  cases a with
  | mk c =>
    simp only [Args.core_mk] at hcmds ⊢
    simp [ValidateSanity, hcmds, validateList, validateOptions_iff]

/-- Witness for C6 (amended): the well-formed `exSimple` passes validation
via the characterization. -/
theorem validate_names_single_pool_witness : ValidateSanity exSimple 0 = true :=
  (validate_names_single_pool exSimple 0 rfl).mpr (by decide)

theorem getD_mem_of_lt {l : List α} {j : Nat} (d : α) (h : j < l.length) :
    l.getD j d ∈ l := by
  induction l generalizing j with
  | nil => simp at h
  | cons x xs ih =>
    cases j with
    | zero => simp
    | succ n =>
      simp only [List.getD_cons_succ]
      exact List.mem_cons_of_mem _ (ih (by simpa using h))

/-- Loop invariant of `Args::Parse`: the chosen-flag of the commands marks
exactly the command the loop variable `cmd` points at. -/
def chosenInv (root : Args) (cmd : Option Nat) : Prop :=
  (∀ k, cmd = some k → k < root.core.Commands.length) ∧
  (∀ j, j < root.core.Commands.length →
    ((root.core.Commands.getD j default).core.CmdWasChosen = true ↔ cmd = some j))

/-- `chosenInv` only looks at the length and chosen flags of the command
list, so any update preserving those preserves it. -/
theorem chosenInv_of_same_chosen (root root2 : Args) (cmd : Option Nat)
    (hlen : root2.core.Commands.length = root.core.Commands.length)
    (hch : ∀ j, j < root.core.Commands.length →
      (root2.core.Commands.getD j default).core.CmdWasChosen =
      (root.core.Commands.getD j default).core.CmdWasChosen)
    (h : chosenInv root cmd) : chosenInv root2 cmd := by
  obtain ⟨hb, hj⟩ := h
  refine ⟨fun k hk => hlen ▸ hb k hk, fun j hjl => ?_⟩
  rw [hlen] at hjl
  rw [hch j hjl]
  exact hj j hjl

theorem chosenInv_updOpt (root : Args) (cmd : Option Nat) (oi : Nat)
    (f : ArgOption → ArgOption) (h : chosenInv root cmd) :
    chosenInv (updOpt root cmd oi f) cmd := by
  cases cmd with
  | none => exact chosenInv_of_same_chosen root _ none rfl (fun j _ => rfl) h
  | some k =>
    refine chosenInv_of_same_chosen root _ (some k) (updateNth_length _ _ _) ?_ h
    intro j hjl
    by_cases hjk : j = k
    · subst hjk
      rw [updOpt, Args.core_mk, updateNth_getD_self _ _ _ _ hjl]
      rfl
    · rw [updOpt, Args.core_mk, updateNth_getD_ne _ _ _ _ _ hjk]

theorem chosenInv_addParam (root : Args) (cmd : Option Nat) (arg : String)
    (h : chosenInv root cmd) : chosenInv (addParam root cmd arg) cmd := by
  cases cmd with
  | none => exact chosenInv_of_same_chosen root _ none rfl (fun j _ => rfl) h
  | some k =>
    refine chosenInv_of_same_chosen root _ (some k) (updateNth_length _ _ _) ?_ h
    intro j hjl
    by_cases hjk : j = k
    · subst hjk
      rw [addParam, Args.core_mk, updateNth_getD_self _ _ _ _ hjl]
      rfl
    · rw [addParam, Args.core_mk, updateNth_getD_ne _ _ _ _ _ hjk]

theorem chosenInv_chooseCmd (root : Args) (k : Nat)
    (hk : k < root.core.Commands.length)
    (h : chosenInv root none) : chosenInv (chooseCmd root k) (some k) := by
  obtain ⟨-, hj⟩ := h
  constructor
  · intro k2 hk2
    cases hk2
    simpa [chooseCmd, updateNth_length] using hk
  · intro j hjl
    simp only [chooseCmd, Args.core_mk, updateNth_length] at hjl ⊢
    by_cases hjk : j = k
    · subst hjk
      rw [updateNth_getD_self _ _ _ _ hk]
      simp
    · rw [updateNth_getD_ne _ _ _ _ _ hjk]
      have hfalse : (root.core.Commands.getD j default).core.CmdWasChosen = false := by
        cases hb : (root.core.Commands.getD j default).core.CmdWasChosen with
        | false => rfl
        | true => exact absurd ((hj j hjl).mp hb) (by simp)
      constructor
      · intro hc
        rw [hfalse] at hc
        exact absurd hc (by simp)
      · intro hc
        injection hc with hkj
        exact absurd hkj.symm hjk

/-- A `Sum.inl` result of `cmdOrPos` is always a failed parse. -/
theorem cmdOrPos_inl_false (root : Args) (cmd : Option Nat) (arg : String)
    (next : Option String) (done : Args × Bool)
    (h : cmdOrPos root cmd arg next = Sum.inl done) : done.2 = false := by
  unfold cmdOrPos at h
  split at h
  · split at h
    · exact absurd h (by simp)
    · split at h
      · split at h <;> (cases h; rfl)
      · cases h; rfl
  · exact absurd h (by simp)

/-- A `Sum.inr` continuation of `cmdOrPos` preserves the chosen-command
invariant. -/
theorem cmdOrPos_inr_inv (root : Args) (cmd : Option Nat) (arg : String)
    (next : Option String) (root2 : Args) (cmd2 : Option Nat)
    (h : cmdOrPos root cmd arg next = Sum.inr (root2, cmd2))
    (hinv : chosenInv root cmd) : chosenInv root2 cmd2 := by
  unfold cmdOrPos at h
  split at h
  next hc =>
    split at h
    next k hk =>
      obtain ⟨rfl, rfl⟩ : chooseCmd root k = root2 ∧ some k = cmd2 := by
        injection h with h2
        injection h2 with h3 h4
        exact ⟨h3, h4⟩
      have hklt : k < root.core.Commands.length :=
        (List.findIdx?_eq_some_iff_findIdx_eq.mp hk).1
      exact chosenInv_chooseCmd root k hklt (hc.2 ▸ hinv)
    next =>
      split at h
      · split at h <;> exact absurd h (by simp)
      · exact absurd h (by simp)
  next hc =>
    obtain ⟨rfl, rfl⟩ : addParam root cmd arg = root2 ∧ cmd = cmd2 := by
      injection h with h2
      injection h2 with h3 h4
      exact ⟨h3, h4⟩
    exact chosenInv_addParam root cmd arg hinv

/-! Unfolding lemmas for `parseLoop`, one per branch of the loop body. -/

theorem parseLoop_nil (root : Args) (cmd : Option Nat) :
    parseLoop root cmd [] = parsePost root cmd := by
  rw [parseLoop]

theorem parseLoop_value_atEnd (root : Args) (cmd : Option Nat) (arg : String) (oi : Nat)
    (hdash : startsDash arg = true)
    (hfind : FindOption (activeOpts root cmd) arg = some oi)
    (hval : ((activeOpts root cmd).getD oi default).ExpectsValue = true) :
    parseLoop root cmd [arg] = (root, false) := by
  have hval2 : ((activeOpts root cmd)[oi]?.getD default).ExpectsValue = true := by
    simpa [List.getD] using hval
  simp [parseLoop, hdash, hfind, hval2]

theorem parseLoop_value_cons (root : Args) (cmd : Option Nat) (arg v : String)
    (rest : List String) (oi : Nat)
    (hdash : startsDash arg = true)
    (hfind : FindOption (activeOpts root cmd) arg = some oi)
    (hval : ((activeOpts root cmd).getD oi default).ExpectsValue = true) :
    parseLoop root cmd (arg :: v :: rest) =
      parseLoop (updOpt root cmd oi (setValue v)) cmd rest := by
  have hval2 : ((activeOpts root cmd)[oi]?.getD default).ExpectsValue = true := by
    simpa [List.getD] using hval
  simp [parseLoop, hdash, hfind, hval2]

theorem parseLoop_switch (root : Args) (cmd : Option Nat) (arg : String)
    (rest : List String) (oi : Nat)
    (hdash : startsDash arg = true)
    (hfind : FindOption (activeOpts root cmd) arg = some oi)
    (hval : ((activeOpts root cmd).getD oi default).ExpectsValue = false) :
    parseLoop root cmd (arg :: rest) =
      parseLoop (updOpt root cmd oi setToggled) cmd rest := by
  have hval2 : ((activeOpts root cmd)[oi]?.getD default).ExpectsValue = false := by
    simpa [List.getD] using hval
  cases rest <;> simp [parseLoop, hdash, hfind, hval2]

theorem parseLoop_help_atEnd (root : Args) (cmd : Option Nat) (arg : String)
    (hdash : startsDash arg = true)
    (hfind : FindOption (activeOpts root cmd) arg = none)
    (hhelp : helpSpelling arg = true) :
    parseLoop root cmd [arg] = (ShowHelpInternal root "", false) := by
  simp [parseLoop, hdash, hfind, hhelp]

theorem parseLoop_help_cons (root : Args) (cmd : Option Nat) (arg nxt : String)
    (rest : List String)
    (hdash : startsDash arg = true)
    (hfind : FindOption (activeOpts root cmd) arg = none)
    (hhelp : helpSpelling arg = true) :
    parseLoop root cmd (arg :: nxt :: rest) = (ShowHelpInternal root nxt, false) := by
  simp [parseLoop, hdash, hfind, hhelp]

theorem parseLoop_unknown (root : Args) (cmd : Option Nat) (arg : String)
    (rest : List String)
    (hdash : startsDash arg = true)
    (hfind : FindOption (activeOpts root cmd) arg = none)
    (hhelp : helpSpelling arg = false)
    (hnum : IsNumeric arg = false) :
    parseLoop root cmd (arg :: rest) = (root, false) := by
  cases rest <;> simp [parseLoop, hdash, hfind, hhelp, hnum]

theorem parseLoop_numeric_inl (root : Args) (cmd : Option Nat) (arg : String)
    (rest : List String) (done : Args × Bool)
    (hdash : startsDash arg = true)
    (hfind : FindOption (activeOpts root cmd) arg = none)
    (hhelp : helpSpelling arg = false)
    (hnum : IsNumeric arg = true)
    (hdone : cmdOrPos root cmd arg rest.head? = Sum.inl done) :
    parseLoop root cmd (arg :: rest) = done := by
  cases rest <;>
    (simp only [List.head?_nil, List.head?_cons] at hdone
     simp [parseLoop, hdash, hfind, hhelp, hnum, hdone])

theorem parseLoop_numeric_inr (root : Args) (cmd : Option Nat) (arg : String)
    (rest : List String) (root2 : Args) (cmd2 : Option Nat)
    (hdash : startsDash arg = true)
    (hfind : FindOption (activeOpts root cmd) arg = none)
    (hhelp : helpSpelling arg = false)
    (hnum : IsNumeric arg = true)
    (hinr : cmdOrPos root cmd arg rest.head? = Sum.inr (root2, cmd2)) :
    parseLoop root cmd (arg :: rest) = parseLoop root2 cmd2 rest := by
  cases rest <;>
    (simp only [List.head?_nil, List.head?_cons] at hinr
     simp [parseLoop, hdash, hfind, hhelp, hnum, hinr])

theorem parseLoop_nondash_inl (root : Args) (cmd : Option Nat) (arg : String)
    (rest : List String) (done : Args × Bool)
    (hdash : startsDash arg = false)
    (hdone : cmdOrPos root cmd arg rest.head? = Sum.inl done) :
    parseLoop root cmd (arg :: rest) = done := by
  cases rest <;>
    (simp only [List.head?_nil, List.head?_cons] at hdone
     simp [parseLoop, hdash, hdone])

theorem parseLoop_nondash_inr (root : Args) (cmd : Option Nat) (arg : String)
    (rest : List String) (root2 : Args) (cmd2 : Option Nat)
    (hdash : startsDash arg = false)
    (hinr : cmdOrPos root cmd arg rest.head? = Sum.inr (root2, cmd2)) :
    parseLoop root cmd (arg :: rest) = parseLoop root2 cmd2 rest := by
  cases rest <;>
    (simp only [List.head?_nil, List.head?_cons] at hinr
     simp [parseLoop, hdash, hinr])

/-- The parameter-count property guaranteed on a successful exit of the
token loop, given the chosen-command invariant. -/
theorem parseLoop_success_param_count :
    ∀ (root : Args) (cmd : Option Nat) (ts : List String),
    chosenInv root cmd → ∀ a2 : Args, parseLoop root cmd ts = (a2, true) →
    ∀ j, j < a2.core.Commands.length →
      (a2.core.Commands.getD j default).core.CmdWasChosen = true →
      (a2.core.Commands.getD j default).core.CmdEnforceParams = true →
      (a2.core.Commands.getD j default).core.Params.length =
        Args.CmdParamsCount (a2.core.Commands.getD j default) := by
  intro root cmd ts
  induction root, cmd, ts using parseLoop.induct with
  | case1 root cmd =>
    intro hinv a2 h j hjl hch hen
    rw [parseLoop_nil] at h
    unfold parsePost at h
    cases cmd with
    | none =>
      obtain ⟨rfl, -⟩ : root = a2 ∧ true = true := by
        injection h with h1 h2
        exact ⟨h1, rfl⟩
      exact absurd ((hinv.2 j hjl).mp hch) (by simp)
    | some k =>
      simp only at h
      split at h
      · exact absurd h (by simp)
      next hpass =>
        obtain ⟨rfl, -⟩ : root = a2 ∧ true = true := by
          injection h with h1 h2
          exact ⟨h1, rfl⟩
        have hjk : k = j := by
          have := (hinv.2 j hjl).mp hch
          injection this
        subst hjk
        rcases Decidable.not_and_iff_or_not.mp hpass with hne | hne
        · exact absurd hen hne
        · exact Decidable.not_not.mp hne
  | case2 root cmd arg hdash oi hfind hval =>
    intro hinv a2 h
    rw [parseLoop_value_atEnd root cmd arg oi hdash hfind hval] at h
    exact absurd h (by simp)
  | case3 root cmd arg hdash oi hfind hval v rest2 ih =>
    intro hinv a2 h
    rw [parseLoop_value_cons root cmd arg v rest2 oi hdash hfind hval] at h
    exact ih (chosenInv_updOpt root cmd oi _ hinv) a2 h
  | case4 root cmd arg rest2 hdash oi hfind hval ih =>
    intro hinv a2 h
    have hvalf : ((activeOpts root cmd).getD oi default).ExpectsValue = false :=
      by simpa using hval
    rw [parseLoop_switch root cmd arg rest2 oi hdash hfind hvalf] at h
    exact ih (chosenInv_updOpt root cmd oi _ hinv) a2 h
  | case5 root cmd arg hdash hfind hhelp =>
    intro hinv a2 h
    rw [parseLoop_help_atEnd root cmd arg hdash hfind hhelp] at h
    exact absurd h (by simp)
  | case6 root cmd arg hdash hfind hhelp nxt rest2 =>
    intro hinv a2 h
    rw [parseLoop_help_cons root cmd arg nxt rest2 hdash hfind hhelp] at h
    exact absurd h (by simp)
  | case7 root cmd arg rest2 hdash hfind hhelp hnum done hdone =>
    intro hinv a2 h
    have hhelpf : helpSpelling arg = false := by simpa using hhelp
    rw [parseLoop_numeric_inl root cmd arg rest2 done hdash hfind hhelpf hnum hdone] at h
    have := cmdOrPos_inl_false root cmd arg rest2.head? done hdone
    rw [h] at this
    exact absurd this (by simp)
  | case8 root cmd arg rest2 hdash hfind hhelp hnum root2 cmd2 hinr ih =>
    intro hinv a2 h
    have hhelpf : helpSpelling arg = false := by simpa using hhelp
    rw [parseLoop_numeric_inr root cmd arg rest2 root2 cmd2 hdash hfind hhelpf hnum hinr] at h
    exact ih (cmdOrPos_inr_inv root cmd arg rest2.head? root2 cmd2 hinr hinv) a2 h
  | case9 root cmd arg rest2 hdash hfind hhelp hnum =>
    intro hinv a2 h
    have hhelpf : helpSpelling arg = false := by simpa using hhelp
    have hnumf : IsNumeric arg = false := by simpa using hnum
    rw [parseLoop_unknown root cmd arg rest2 hdash hfind hhelpf hnumf] at h
    exact absurd h (by simp)
  | case10 root cmd arg rest2 hdash done hdone =>
    intro hinv a2 h
    have hdashf : startsDash arg = false := by simpa using hdash
    rw [parseLoop_nondash_inl root cmd arg rest2 done hdashf hdone] at h
    have := cmdOrPos_inl_false root cmd arg rest2.head? done hdone
    rw [h] at this
    exact absurd this (by simp)
  | case11 root cmd arg rest2 hdash root2 cmd2 hinr ih =>
    intro hinv a2 h
    have hdashf : startsDash arg = false := by simpa using hdash
    rw [parseLoop_nondash_inr root cmd arg rest2 root2 cmd2 hdashf hinr] at h
    exact ih (cmdOrPos_inr_inv root cmd arg rest2.head? root2 cmd2 hinr hinv) a2 h

/-- Claim C7: whenever `Args::Parse` succeeds and a command was chosen with
parameter-count enforcement enabled, the number of positionals collected on
that command equals the number of `<`-bracketed placeholders of its declared
parameter text (a mismatch would have failed the parse). -/
theorem parse_success_enforces_param_count (a : Args) (argv : List String)
    (startAt : Nat) (a2 : Args) (h : Parse a argv startAt = (a2, true)) :
    ∀ j, j < a2.core.Commands.length →
      (a2.core.Commands.getD j default).core.CmdWasChosen = true →
      (a2.core.Commands.getD j default).core.CmdEnforceParams = true →
      (a2.core.Commands.getD j default).core.Params.length =
        Args.CmdParamsCount (a2.core.Commands.getD j default) := by
  unfold Parse at h
  split at h
  · refine parseLoop_success_param_count (Reset a) none (argv.drop startAt) ?_ a2 h
    constructor
    · intro k hk
      exact absurd hk (by simp)
    · intro j hjl
      constructor
      · intro hch
        have hmem : (Reset a).core.Commands.getD j default ∈ (Reset a).core.Commands :=
          getD_mem_of_lt default hjl
        have hfalse : ((Reset a).core.Commands.getD j default).core.CmdWasChosen = false := by
          cases a with
          | mk c => exact resetList_chosen_false c.Commands _ (by simpa [Reset] using hmem)
        rw [hfalse] at hch
        exact absurd hch (by simp)
      · intro hc
        exact absurd hc (by simp)
  · exact absurd h (by simp)

/-- A schema with one command declared as `copy <src> <dst>` (two bracketed
placeholders). -/
def exCopy : Args :=
  (Args.mk { Usage := "thing" }).AddCommand "copy <src> <dst>" "Copy stuff" (some 0)

/-- Witness for C7 at a concrete input: `copy a b` succeeds and the chosen
command holds exactly two positionals, matching its placeholder count. -/
theorem parse_success_enforces_param_count_witness :
    ((Parse exCopy ["prog", "copy", "a", "b"] 1).1.core.Commands.getD 0
        default).core.Params.length =
      Args.CmdParamsCount
        ((Parse exCopy ["prog", "copy", "a", "b"] 1).1.core.Commands.getD 0 default) :=
  parse_success_enforces_param_count exCopy ["prog", "copy", "a", "b"] 1
    (Parse exCopy ["prog", "copy", "a", "b"] 1).1 rfl 0 (by decide) (by decide) (by decide)

/-- Modelled from the spec: the `ParseEnd` / `parseEndIndex` record is
missing from src/argparse.h in this snapshot (src/test.cpp reads
`args.ParseEnd`, and the spec requires "the index of the last token consumed
by the acting parse plus one").  This mirrors `parseLoop`, threading `i`,
the index one past the last consumed token: every classified token is
consumed, and a value option additionally consumes its value token. -/
def parseLoopEnd (root : Args) (cmd : Option Nat) (i : Nat) :
    List String → (Args × Bool) × Nat
  | [] => (parsePost root cmd, i)
  | arg :: rest =>
    if startsDash arg then
      match FindOption (activeOpts root cmd) arg with
      | some oi =>
        if ((activeOpts root cmd).getD oi default).ExpectsValue then
          match rest with
          | [] => ((root, false), i)
          | v :: rest2 => parseLoopEnd (updOpt root cmd oi (setValue v)) cmd (i + 2) rest2
        else parseLoopEnd (updOpt root cmd oi setToggled) cmd (i + 1) rest
      | none =>
        if helpSpelling arg then
          match rest with
          | [] => ((ShowHelpInternal root "", false), i)
          | nxt :: _ => ((ShowHelpInternal root nxt, false), i)
        else if IsNumeric arg then
          match cmdOrPos root cmd arg rest.head? with
          | Sum.inl done => (done, i)
          | Sum.inr (root2, cmd2) => parseLoopEnd root2 cmd2 (i + 1) rest
        else ((root, false), i)
    else
      match cmdOrPos root cmd arg rest.head? with
      | Sum.inl done => (done, i)
      | Sum.inr (root2, cmd2) => parseLoopEnd root2 cmd2 (i + 1) rest

/-- Modelled from the spec: `Parse` augmented with the recorded
`parseEndIndex`. -/
def ParseWithEnd (a : Args) (argv : List String) (startAt : Nat) :
    (Args × Bool) × Nat :=
  if ValidateSanity a 0 then parseLoopEnd (Reset a) none startAt (argv.drop startAt)
  else ((a, false), startAt)

/-- `parseLoopEnd` computes the same outcome as `parseLoop`, and on success
(which exits at the end of the token list) the recorded index is the start
index plus the number of tokens — one past the last consumed token. -/
theorem parseLoopEnd_spec :
    ∀ (root : Args) (cmd : Option Nat) (i : Nat) (ts : List String),
    (parseLoopEnd root cmd i ts).1 = parseLoop root cmd ts ∧
    ((parseLoopEnd root cmd i ts).1.2 = true →
      (parseLoopEnd root cmd i ts).2 = i + ts.length) := by
  intro root cmd i ts
  induction root, cmd, i, ts using parseLoopEnd.induct with
  | case1 root cmd i =>
    rw [show parseLoopEnd root cmd i [] = (parsePost root cmd, i) from by
      simp [parseLoopEnd]]
    exact ⟨(parseLoop_nil root cmd).symm, fun _ => by simp⟩
  | case2 root cmd i arg hdash oi hfind hval =>
    have hval2 : ((activeOpts root cmd)[oi]?.getD default).ExpectsValue = true := by
      simpa [List.getD] using hval
    rw [show parseLoopEnd root cmd i [arg] = ((root, false), i) from by
      simp [parseLoopEnd, hdash, hfind, hval2]]
    rw [parseLoop_value_atEnd root cmd arg oi hdash hfind hval]
    exact ⟨rfl, fun hs => absurd hs (by simp)⟩
  | case3 root cmd i arg hdash oi hfind hval v rest2 ih =>
    have hval2 : ((activeOpts root cmd)[oi]?.getD default).ExpectsValue = true := by
      simpa [List.getD] using hval
    rw [show parseLoopEnd root cmd i (arg :: v :: rest2) =
        parseLoopEnd (updOpt root cmd oi (setValue v)) cmd (i + 2) rest2 from by
      simp [parseLoopEnd, hdash, hfind, hval2]]
    rw [parseLoop_value_cons root cmd arg v rest2 oi hdash hfind hval]
    refine ⟨ih.1, fun hs => ?_⟩
    rw [ih.2 hs]
    simp
    omega
  | case4 root cmd i arg rest2 hdash oi hfind hval ih =>
    have hvalf : ((activeOpts root cmd).getD oi default).ExpectsValue = false := by
      simpa using hval
    have hval2 : ((activeOpts root cmd)[oi]?.getD default).ExpectsValue = false := by
      simpa [List.getD] using hvalf
    rw [show parseLoopEnd root cmd i (arg :: rest2) =
        parseLoopEnd (updOpt root cmd oi setToggled) cmd (i + 1) rest2 from by
      cases rest2 <;> simp [parseLoopEnd, hdash, hfind, hval2]]
    rw [parseLoop_switch root cmd arg rest2 oi hdash hfind hvalf]
    refine ⟨ih.1, fun hs => ?_⟩
    rw [ih.2 hs]
    simp
    omega
  | case5 root cmd i arg hdash hfind hhelp =>
    rw [show parseLoopEnd root cmd i [arg] = ((ShowHelpInternal root "", false), i) from by
      simp [parseLoopEnd, hdash, hfind, hhelp]]
    rw [parseLoop_help_atEnd root cmd arg hdash hfind hhelp]
    exact ⟨rfl, fun hs => absurd hs (by simp)⟩
  | case6 root cmd i arg hdash hfind hhelp nxt rest2 =>
    rw [show parseLoopEnd root cmd i (arg :: nxt :: rest2) =
        ((ShowHelpInternal root nxt, false), i) from by
      simp [parseLoopEnd, hdash, hfind, hhelp]]
    rw [parseLoop_help_cons root cmd arg nxt rest2 hdash hfind hhelp]
    exact ⟨rfl, fun hs => absurd hs (by simp)⟩
  | case7 root cmd i arg rest2 hdash hfind hhelp hnum done hdone =>
    have hhelpf : helpSpelling arg = false := by simpa using hhelp
    rw [show parseLoopEnd root cmd i (arg :: rest2) = (done, i) from by
      cases rest2 <;>
        (simp only [List.head?_nil, List.head?_cons] at hdone
         simp [parseLoopEnd, hdash, hfind, hhelpf, hnum, hdone])]
    rw [parseLoop_numeric_inl root cmd arg rest2 done hdash hfind hhelpf hnum hdone]
    refine ⟨rfl, fun hs => ?_⟩
    have := cmdOrPos_inl_false root cmd arg rest2.head? done hdone
    rw [this] at hs
    exact absurd hs (by simp)
  | case8 root cmd i arg rest2 hdash hfind hhelp hnum root2 cmd2 hinr ih =>
    have hhelpf : helpSpelling arg = false := by simpa using hhelp
    rw [show parseLoopEnd root cmd i (arg :: rest2) =
        parseLoopEnd root2 cmd2 (i + 1) rest2 from by
      cases rest2 <;>
        (simp only [List.head?_nil, List.head?_cons] at hinr
         simp [parseLoopEnd, hdash, hfind, hhelpf, hnum, hinr])]
    rw [parseLoop_numeric_inr root cmd arg rest2 root2 cmd2 hdash hfind hhelpf hnum hinr]
    refine ⟨ih.1, fun hs => ?_⟩
    rw [ih.2 hs]
    simp
    omega
  | case9 root cmd i arg rest2 hdash hfind hhelp hnum =>
    have hhelpf : helpSpelling arg = false := by simpa using hhelp
    have hnumf : IsNumeric arg = false := by simpa using hnum
    rw [show parseLoopEnd root cmd i (arg :: rest2) = ((root, false), i) from by
      cases rest2 <;> simp [parseLoopEnd, hdash, hfind, hhelpf, hnumf]]
    rw [parseLoop_unknown root cmd arg rest2 hdash hfind hhelpf hnumf]
    exact ⟨rfl, fun hs => absurd hs (by simp)⟩
  | case10 root cmd i arg rest2 hdash done hdone =>
    have hdashf : startsDash arg = false := by simpa using hdash
    rw [show parseLoopEnd root cmd i (arg :: rest2) = (done, i) from by
      cases rest2 <;>
        (simp only [List.head?_nil, List.head?_cons] at hdone
         simp [parseLoopEnd, hdashf, hdone])]
    rw [parseLoop_nondash_inl root cmd arg rest2 done hdashf hdone]
    refine ⟨rfl, fun hs => ?_⟩
    have := cmdOrPos_inl_false root cmd arg rest2.head? done hdone
    rw [this] at hs
    exact absurd hs (by simp)
  | case11 root cmd i arg rest2 hdash root2 cmd2 hinr ih =>
    have hdashf : startsDash arg = false := by simpa using hdash
    rw [show parseLoopEnd root cmd i (arg :: rest2) =
        parseLoopEnd root2 cmd2 (i + 1) rest2 from by
      cases rest2 <;>
        (simp only [List.head?_nil, List.head?_cons] at hinr
         simp [parseLoopEnd, hdashf, hinr])]
    rw [parseLoop_nondash_inr root cmd arg rest2 root2 cmd2 hdashf hinr]
    refine ⟨ih.1, fun hs => ?_⟩
    rw [ih.2 hs]
    simp
    omega

/-- Claim C8 (spec-modelled): the recorded `parseEndIndex` agrees with the
source `Parse` outcome, and on a successful parse it equals one past the
index of the last token consumed — every remaining token was consumed, so a
caller resuming at `parseEndIndex` finds exactly the unconsumed (empty)
remainder. -/
theorem parse_end_index_resume (a : Args) (argv : List String) (startAt : Nat)
    (hstart : startAt ≤ argv.length) :
    (ParseWithEnd a argv startAt).1 = Parse a argv startAt ∧
    ((ParseWithEnd a argv startAt).1.2 = true →
      (ParseWithEnd a argv startAt).2 = argv.length ∧
      argv.drop (ParseWithEnd a argv startAt).2 = []) := by
  unfold ParseWithEnd Parse
  split
  · have h := parseLoopEnd_spec (Reset a) none startAt (argv.drop startAt)
    refine ⟨h.1, fun hs => ?_⟩
    have hend := h.2 hs
    have hlen : (argv.drop startAt).length = argv.length - startAt := by simp
    rw [hend, hlen]
    constructor
    · omega
    · rw [show startAt + (argv.length - startAt) = argv.length from by omega]
      exact List.drop_length argv
  · exact ⟨rfl, fun hs => absurd hs (by simp)⟩

/-- Witness for C8 at a concrete input: parsing `foo` against `exCmdOnly`
succeeds, the outcomes agree, and the end index is 2 = one past the last
consumed token. -/
theorem parse_end_index_resume_witness :
    (ParseWithEnd exCmdOnly ["prog", "foo"] 1).1 = Parse exCmdOnly ["prog", "foo"] 1 ∧
    (ParseWithEnd exCmdOnly ["prog", "foo"] 1).2 = 2 :=
  ⟨(parse_end_index_resume exCmdOnly ["prog", "foo"] 1 (by decide)).1,
   ((parse_end_index_resume exCmdOnly ["prog", "foo"] 1 (by decide)).2 rfl).1⟩

/-- A command with no registered handler (`CmdFunc` is the null
`std::function`), marked chosen. -/
def exChildNoHandler : Args :=
  Args.mk { Usage := "c", CmdName := "foo", CmdFunc := none, CmdWasChosen := true }

/-- An `Args` whose chosen command has no handler. -/
def exChosenNoHandler : Args := Args.mk { Usage := "u", Commands := [exChildNoHandler] }

/-- Counterexample to claim C9 as stated: when the chosen command has no
handler registered, `Args::ExecCommand` does NOT return the failure code 1 —
it calls the default-constructed `std::function` without any null check
(raising `std::bad_function_call`; the call does not return a value, modelled
as `none`). -/
theorem exec_missing_handler_not_one :
    ExecCommand (fun _ _ => 0) exChosenNoHandler = none ∧
    ExecCommand (fun _ _ => 0) exChosenNoHandler ≠ some 1 :=
  ⟨rfl, by decide⟩

/-- Amended claim C9: `Args::ExecCommand` returns the fixed failure code 1
when no command was chosen in the most recent parse; when the chosen command
has a registered handler it invokes it with the chosen OptionSet as argument
and propagates its return code; but when the chosen command has NO handler
it does not return 1 — it invokes an empty `std::function` (no return value,
`std::bad_function_call`), modelled as `none`. -/
theorem exec_command_spec (env : Nat → Args → Int) (a : Args) :
    (WhichCommand a = none → ExecCommand env a = some 1) ∧
    (∀ c f, WhichCommand a = some c → c.core.CmdFunc = some f →
      ExecCommand env a = some (env f c)) ∧
    (∀ c, WhichCommand a = some c → c.core.CmdFunc = none →
      ExecCommand env a = none) := by
  refine ⟨fun h => ?_, fun c f h hf => ?_, fun c h hf => ?_⟩
  · simp [ExecCommand, h]
  · simp [ExecCommand, h, hf]
  · simp [ExecCommand, h, hf]

/-- A command with handler id 7, marked chosen. -/
def exChildHandler : Args :=
  Args.mk { Usage := "c", CmdName := "bar", CmdFunc := some 7, CmdWasChosen := true }

/-- An `Args` whose chosen command has handler id 7. -/
def exChosenHandler : Args := Args.mk { Usage := "u", Commands := [exChildHandler] }

/-- Witness for C9 (amended) at concrete inputs: a chosen command with a
handler propagates the handler's return code, and no chosen command gives
the failure code 1. -/
theorem exec_command_spec_witness :
    ExecCommand (fun f _ => Int.ofNat f) exChosenHandler = some 7 ∧
    ExecCommand (fun f _ => Int.ofNat f) (Args.mk { Usage := "u" }) = some 1 :=
  ⟨(exec_command_spec (fun f _ => Int.ofNat f) exChosenHandler).2.1
      exChildHandler 7 rfl rfl,
   (exec_command_spec (fun f _ => Int.ofNat f) (Args.mk { Usage := "u" })).1 rfl⟩

/-- The declaration-only projection of an option: expects-value kind, short
name, long name, summary, default. -/
def optSchema (o : ArgOption) : Bool × String × String × String × String :=
  (o.ExpectsValue, o.Short, o.Long, o.Summary, o.Default)

/-- The declaration (schema) part of an `Args` tree: usage text, option
declarations in order, command name, parameter text, handler, enforcement
flag, and, recursively, the schemas of the command children in order.
Everything NOT here (Toggled, Value, Params, WasHelpShown, CmdWasChosen) is
parse result state. -/
inductive Schema where
  | mk : String → List (Bool × String × String × String × String) → String → String →
      Option Nat → Bool → List Schema → Schema

mutual

/-- The schema projection of an `Args`. -/
def schemaOf : Args → Schema
  | .mk c => .mk c.Usage (c.Options.map optSchema) c.CmdName c.CmdParams c.CmdFunc
      c.CmdEnforceParams (schemaList c.Commands)

/-- The schema projections of a command list. -/
def schemaList : List Args → List Schema
  | [] => []
  | a :: as => schemaOf a :: schemaList as

end

theorem schemaOf_clearChosen (a : Args) : schemaOf (clearChosen a) = schemaOf a := by
  cases a
  rfl

mutual

theorem schemaOf_reset : ∀ a : Args, schemaOf (Reset a) = schemaOf a
  | .mk c => by
    rw [Reset, schemaOf, schemaOf, schemaList_resetList c.Commands]
    simp only [Args.core_mk, List.map_map]
    have hco : optSchema ∘ resetOpt = optSchema := funext fun o => rfl
    rw [hco]

theorem schemaList_resetList : ∀ l : List Args, schemaList (resetList l) = schemaList l
  | [] => rfl
  | a :: as => by
    rw [resetList, schemaList, schemaList, schemaOf_clearChosen, schemaOf_reset a,
      schemaList_resetList as]

end

theorem map_optSchema_updateNth (f : ArgOption → ArgOption) (oi : Nat)
    (l : List ArgOption) (hf : ∀ o, optSchema (f o) = optSchema o) :
    (updateNth f oi l).map optSchema = l.map optSchema := by
  induction l generalizing oi with
  | nil => cases oi <;> rfl
  | cons x xs ih => cases oi with
    | zero => simp [updateNth, hf]
    | succ n => simp [updateNth, ih]

theorem schemaList_updateNth (g : Args → Args) (k : Nat) (l : List Args)
    (hg : ∀ x, schemaOf (g x) = schemaOf x) :
    schemaList (updateNth g k l) = schemaList l := by
  induction l generalizing k with
  | nil => cases k <;> rfl
  | cons a as ih => cases k with
    | zero => simp [updateNth, schemaList, hg]
    | succ n => simp [updateNth, schemaList, ih]

theorem schemaOf_updOpt (root : Args) (cmd : Option Nat) (oi : Nat)
    (f : ArgOption → ArgOption) (hf : ∀ o, optSchema (f o) = optSchema o) :
    schemaOf (updOpt root cmd oi f) = schemaOf root := by
  cases root with
  | mk c =>
    cases cmd with
    | none =>
      rw [updOpt, schemaOf, schemaOf]
      simp only [Args.core_mk]
      rw [map_optSchema_updateNth f oi c.Options hf]
    | some k =>
      rw [updOpt, schemaOf, schemaOf]
      simp only [Args.core_mk]
      rw [schemaList_updateNth _ k c.Commands]
      intro x
      cases x with
      | mk cx =>
        rw [schemaOf, schemaOf]
        simp only [Args.core_mk]
        rw [map_optSchema_updateNth f oi cx.Options hf]

theorem schemaOf_addParam (root : Args) (cmd : Option Nat) (arg : String) :
    schemaOf (addParam root cmd arg) = schemaOf root := by
  cases root with
  | mk c =>
    cases cmd with
    | none => rfl
    | some k =>
      rw [addParam, schemaOf, schemaOf]
      simp only [Args.core_mk]
      rw [schemaList_updateNth _ k c.Commands]
      intro x
      cases x
      rfl

theorem schemaOf_chooseCmd (root : Args) (k : Nat) :
    schemaOf (chooseCmd root k) = schemaOf root := by
  cases root with
  | mk c =>
    rw [chooseCmd, schemaOf, schemaOf]
    simp only [Args.core_mk]
    rw [schemaList_updateNth _ k c.Commands]
    intro x
    cases x
    rfl

theorem schemaList_setHelpFirst : ∀ (l : List Args) (name : String),
    schemaList (setHelpFirst l name) = schemaList l
  | [], _ => rfl
  | c :: cs, name => by
    rw [setHelpFirst]
    split
    · rw [schemaList, schemaList]
      congr 1
      cases c
      rfl
    · rw [schemaList, schemaList, schemaList_setHelpFirst cs name]

theorem schemaOf_showHelp (a : Args) (forCmd : String) :
    schemaOf (ShowHelpInternal a forCmd) = schemaOf a := by
  cases a with
  | mk c =>
    rw [ShowHelpInternal]
    split
    · rw [schemaOf, schemaOf]
      simp only [Args.core_mk]
      rw [schemaList_setHelpFirst]
    · rfl

theorem cmdOrPos_inl_schema (root : Args) (cmd : Option Nat) (arg : String)
    (next : Option String) (done : Args × Bool)
    (h : cmdOrPos root cmd arg next = Sum.inl done) :
    schemaOf done.1 = schemaOf root := by
  unfold cmdOrPos at h
  split at h
  · split at h
    · exact absurd h (by simp)
    · split at h
      · split at h
        next nxt =>
          injection h with h2
          rw [← h2]
          exact schemaOf_showHelp root nxt
        next =>
          injection h with h2
          rw [← h2]
          exact schemaOf_showHelp root ""
      · injection h with h2
        rw [← h2]
  · exact absurd h (by simp)

theorem cmdOrPos_inr_schema (root : Args) (cmd : Option Nat) (arg : String)
    (next : Option String) (root2 : Args) (cmd2 : Option Nat)
    (h : cmdOrPos root cmd arg next = Sum.inr (root2, cmd2)) :
    schemaOf root2 = schemaOf root := by
  unfold cmdOrPos at h
  split at h
  · split at h
    next k hk =>
      obtain ⟨rfl, -⟩ : chooseCmd root k = root2 ∧ some k = cmd2 := by
        injection h with h2
        injection h2 with h3 h4
        exact ⟨h3, h4⟩
      exact schemaOf_chooseCmd root k
    next =>
      split at h
      · split at h <;> exact absurd h (by simp)
      · exact absurd h (by simp)
  · obtain ⟨rfl, -⟩ : addParam root cmd arg = root2 ∧ cmd = cmd2 := by
      injection h with h2
      injection h2 with h3 h4
      exact ⟨h3, h4⟩
    exact schemaOf_addParam root cmd arg

/-- The token loop of `Args::Parse` never changes the schema projection of
the state it threads. -/
theorem parseLoop_schema : ∀ (root : Args) (cmd : Option Nat) (ts : List String),
    schemaOf (parseLoop root cmd ts).1 = schemaOf root := by
  intro root cmd ts
  induction root, cmd, ts using parseLoop.induct with
  | case1 root cmd =>
    rw [parseLoop_nil]
    unfold parsePost
    cases cmd with
    | none => rfl
    | some k =>
      simp only
      split <;> rfl
  | case2 root cmd arg hdash oi hfind hval =>
    rw [parseLoop_value_atEnd root cmd arg oi hdash hfind hval]
  | case3 root cmd arg hdash oi hfind hval v rest2 ih =>
    rw [parseLoop_value_cons root cmd arg v rest2 oi hdash hfind hval, ih]
    exact schemaOf_updOpt root cmd oi _ (fun o => rfl)
  | case4 root cmd arg rest2 hdash oi hfind hval ih =>
    have hvalf : ((activeOpts root cmd).getD oi default).ExpectsValue = false := by
      simpa using hval
    rw [parseLoop_switch root cmd arg rest2 oi hdash hfind hvalf, ih]
    exact schemaOf_updOpt root cmd oi _ (fun o => rfl)
  | case5 root cmd arg hdash hfind hhelp =>
    rw [parseLoop_help_atEnd root cmd arg hdash hfind hhelp]
    exact schemaOf_showHelp root ""
  | case6 root cmd arg hdash hfind hhelp nxt rest2 =>
    rw [parseLoop_help_cons root cmd arg nxt rest2 hdash hfind hhelp]
    exact schemaOf_showHelp root nxt
  | case7 root cmd arg rest2 hdash hfind hhelp hnum done hdone =>
    have hhelpf : helpSpelling arg = false := by simpa using hhelp
    rw [parseLoop_numeric_inl root cmd arg rest2 done hdash hfind hhelpf hnum hdone]
    exact cmdOrPos_inl_schema root cmd arg rest2.head? done hdone
  | case8 root cmd arg rest2 hdash hfind hhelp hnum root2 cmd2 hinr ih =>
    have hhelpf : helpSpelling arg = false := by simpa using hhelp
    rw [parseLoop_numeric_inr root cmd arg rest2 root2 cmd2 hdash hfind hhelpf hnum hinr, ih]
    exact cmdOrPos_inr_schema root cmd arg rest2.head? root2 cmd2 hinr
  | case9 root cmd arg rest2 hdash hfind hhelp hnum =>
    have hhelpf : helpSpelling arg = false := by simpa using hhelp
    have hnumf : IsNumeric arg = false := by simpa using hnum
    rw [parseLoop_unknown root cmd arg rest2 hdash hfind hhelpf hnumf]
  | case10 root cmd arg rest2 hdash done hdone =>
    have hdashf : startsDash arg = false := by simpa using hdash
    rw [parseLoop_nondash_inl root cmd arg rest2 done hdashf hdone]
    exact cmdOrPos_inl_schema root cmd arg rest2.head? done hdone
  | case11 root cmd arg rest2 hdash root2 cmd2 hinr ih =>
    have hdashf : startsDash arg = false := by simpa using hdash
    rw [parseLoop_nondash_inr root cmd arg rest2 root2 cmd2 hdashf hinr, ih]
    exact cmdOrPos_inr_schema root cmd arg rest2.head? root2 cmd2 hinr

/-- Claim C10: `Args::Parse` leaves every declaration field unchanged — the
usage text, each option's expects-value kind, short name, long name, summary
and default, and each command's name, parameter text, handler and
enforcement flag (recursively, and preserving order and count); only result
fields (Toggled, Value, Params, WasHelpShown, CmdWasChosen) can change. -/
theorem parse_preserves_schema (a : Args) (argv : List String) (startAt : Nat) :
    schemaOf (Parse a argv startAt).1 = schemaOf a := by
  unfold Parse
  split
  · rw [parseLoop_schema]
    exact schemaOf_reset a
  · rfl

end Argparse
